import Mathlib

/-!
Verification development for the transcript topic-clustering engine of the
Alfred repository.

The engine's source lives in
`src/alfred-pwa/app/api/clustering/topics/route.ts` (the clustering route),
`src/alfred-pwa/app/api/cron/cluster-topics/route.ts` (the scheduled cron
job), and the conversations date page (`src/unnamed/part_011`, a React
client component).  The definitions below are a shallow embedding of that
TypeScript code:

* timestamps (`new Date(s).getTime()`) are modelled as `Int` epoch
  milliseconds; for integer millisecond values the source's floating-point
  test `(curr - prev) / 60000 > 30` is equivalent to the integer test
  `curr - prev > 1800000` used here;
* JavaScript's `Array.prototype.sort`, which the ECMAScript standard
  requires to be stable for a consistent comparator, is modelled by the
  stable `List.insertionSort`;
* the completion gateway plus `responseText.match(/\[[\s\S]*\]/)` plus
  `JSON.parse` (platform code, not part of this repository) are modelled by
  an `Option (List RawTopic)` input: `none` stands for a thrown gateway
  error, a response with no array-shaped substring, or a `JSON.parse`
  failure; `some l` stands for a successfully parsed JSON array whose
  element objects may lack any of the expected fields (hence every
  `RawTopic` field is an `Option`).
-/

namespace Alfred

/-- One transcription row as selected by the routes
(`select('id, date, transcription, created_at')`): the `date` field is the
parsed epoch-millisecond timestamp, `transcription` the raw text. -/
structure Transcript where
  id : String
  date : Int
  transcription : String
deriving DecidableEq, Inhabited

instance : DecidableRel (fun a b : Transcript => a.date ≤ b.date) :=
  fun a b => Int.decLe a.date b.date

instance : IsTotal Transcript (fun a b : Transcript => a.date ≤ b.date) :=
  ⟨fun a b => Int.le_total a.date b.date⟩

instance : IsTrans Transcript (fun a b : Transcript => a.date ≤ b.date) :=
  ⟨fun _ _ _ h1 h2 => le_trans h1 h2⟩

instance : IsAntisymm Transcript (fun a b : Transcript => a.date < b.date) :=
  ⟨fun _ _ h1 h2 => absurd (lt_trans h1 h2) (lt_irrefl _)⟩

/-- Embeds `[...transcripts].sort((a, b) => new Date(a.date).getTime() - new Date(b.date).getTime())`
from `groupByTimeProximity`: a stable ascending sort by timestamp. -/
def sortByDate (l : List Transcript) : List Transcript :=
  List.insertionSort (fun a b : Transcript => a.date ≤ b.date) l

/-- Time gap (in minutes) to consider as a conversation break
(`CONVERSATION_GAP_MINUTES` in the route). -/
def CONVERSATION_GAP_MINUTES : Int := 30

/-- The route's gap test `(currTime - prevTime) / (1000 * 60) > 30`,
over integer epoch milliseconds. -/
def gapExceeded (prev curr : Transcript) : Bool :=
  CONVERSATION_GAP_MINUTES * 60000 < curr.date - prev.date

/-- The loop of `groupByTimeProximity`: `prev` is the previously visited
transcript (always the last element of the current group `cur`). -/
def segAux (prev : Transcript) (cur : List Transcript) :
    List Transcript → List (List Transcript)
  | [] => [cur]
  | t :: rest =>
    if gapExceeded prev t then cur :: segAux t [t] rest
    else segAux t (cur ++ [t]) rest

/-- Embeds `groupByTimeProximity` from the clustering route: sort ascending by
date, then split wherever the gap to the previous transcript exceeds
`CONVERSATION_GAP_MINUTES`. -/
def groupByTimeProximity (transcripts : List Transcript) :
    List (List Transcript) :=
  match sortByDate transcripts with
  | [] => []
  | t :: rest => segAux t [t] rest

/-- Maximum transcripts per batch for model processing
(`MAX_BATCH_SIZE` in the route). -/
def MAX_BATCH_SIZE : Nat := 25

/-- Recursion core of the route's chunking loop, bounded by a fuel that
starts at the list length (each source iteration advances `i` by the
positive chunk size, so the length is enough fuel). -/
def chunksOfAux : Nat → Nat → List Transcript → List (List Transcript)
  | _, _, [] => []
  | 0, _, l => [l]
  | fuel + 1, n, x :: xs =>
    (x :: xs).take n :: chunksOfAux fuel n ((x :: xs).drop n)

/-- The route's inner chunking loop
`for (let i = 0; i < group.length; i += MAX_BATCH_SIZE) batches.push(group.slice(i, i + MAX_BATCH_SIZE))`.
(The source loop is only reached with a positive chunk size; the `0` case,
an infinite loop in the source, is given a total value.) -/
def chunksOf (n : Nat) (l : List Transcript) : List (List Transcript) :=
  if n = 0 then [l] else chunksOfAux l.length n l

/-- The loop body of `createBatches`: `cur` is the accumulated
`currentBatch`. -/
def createBatchesGo (maxB : Nat) :
    List (List Transcript) → List Transcript → List (List Transcript)
  | [], cur => if 0 < cur.length then [cur] else []
  | g :: rest, cur =>
    if maxB < g.length then
      (if 0 < cur.length then [cur] else []) ++
        chunksOf maxB g ++ createBatchesGo maxB rest []
    else if maxB < cur.length + g.length then
      cur :: createBatchesGo maxB rest g
    else
      createBatchesGo maxB rest (cur ++ g)

/-- Embeds `createBatches` from the clustering route, parameterised by the batch
bound (the route itself always passes `MAX_BATCH_SIZE`). -/
def createBatches (maxB : Nat) (timeGroups : List (List Transcript)) :
    List (List Transcript) :=
  createBatchesGo maxB timeGroups []

/-- One element of the `sections` array of a topic cluster
(`{heading: string, points: string[]}`). -/
structure TopicSection where
  heading : String
  points : List String
deriving DecidableEq, Inhabited

/-- One element of the JSON array parsed out of a completion response.
The source casts the untyped `JSON.parse` result straight to its
`TopicCluster` interface without validating any field, so at runtime every
field may be absent; absence is modelled by `none`.  Timestamps are epoch
milliseconds as in `Transcript`. -/
structure RawTopic where
  id : Option String
  title : Option String
  category : Option String
  summary : Option String
  sections : Option (List TopicSection)
  transcriptIds : Option (List String)
  startTime : Option Int
  endTime : Option Int
deriving DecidableEq, Inhabited

/-- The fallback cluster built at the end of `processBatch`
(`// Fallback: create a single topic for this batch`).  `startTime` and
`endTime` are `transcripts[0].date` and `transcripts[transcripts.length - 1].date`;
for an empty batch (never produced by the planner) they are absent, like
the source's `undefined`. -/
def fallbackCluster (transcripts : List Transcript) (batchIndex : Nat) :
    RawTopic where
  id := some ("batch" ++ toString batchIndex ++ "_topic_1")
  title := some ("Conversations (Part " ++ toString (batchIndex + 1) ++ ")")
  category := some "General"
  summary := some "Grouped conversations from this time period"
  sections := some []
  transcriptIds := some (transcripts.map (·.id))
  startTime := transcripts.head?.map (·.date)
  endTime := transcripts.getLast?.map (·.date)

/-- Embeds `processBatch` from the clustering route.  `resp` is the outcome of
the gateway call, the array-substring regex and `JSON.parse` combined
(see the header comment): `none` covers a thrown gateway error, a missing
array-shaped substring and a parse failure; `some parsed` is the parsed
array.  The source checks only `Array.isArray(parsed) && parsed.length > 0`
before returning the parsed topics with their `id` rewritten to
`batch{batchIndex}_topic_{idx + 1}`; `totalBatches` is used only inside the
prompt text, which no claim touches. -/
def processBatch (resp : Option (List RawTopic))
    (transcripts : List Transcript) (batchIndex totalBatches : Nat) :
    List RawTopic :=
  match resp with
  | some parsed =>
    if 0 < parsed.length then
      parsed.enum.map (fun p =>
        { p.2 with
          id := some ("batch" ++ toString batchIndex ++ "_topic_" ++
            toString (p.1 + 1)) })
    else [fallbackCluster transcripts batchIndex]
  | none => [fallbackCluster transcripts batchIndex]

/-- The batching decision of the route's `POST` handler: at most
`MAX_BATCH_SIZE` transcripts are processed as a single batch
(`// For small datasets, process in one shot`); otherwise the Segmenter
and Batch Planner run (`// For large datasets, batch by time proximity`). -/
def planRun (transcripts : List Transcript) : List (List Transcript) :=
  if transcripts.length ≤ MAX_BATCH_SIZE then [transcripts]
  else createBatches MAX_BATCH_SIZE (groupByTimeProximity transcripts)

/-- The accumulation loop of the `POST` handler: batches are processed
sequentially in order, each through `processBatch`, and the resulting
clusters concatenated into `allTopics`.  `resp i` is the gateway outcome
for batch `i`.  (The handler's own `catch` around `processBatch` is
unreachable: `processBatch` already absorbs every gateway failure.) -/
def runFullCluster (resp : Nat → Option (List RawTopic))
    (transcripts : List Transcript) : List RawTopic :=
  (planRun transcripts).enum.flatMap (fun p =>
    processBatch (resp p.1) p.2 p.1 (planRun transcripts).length)

/-- Reads `topic.transcriptIds` the way the routes do when enriching
(`transcriptions.filter(t => topic.transcriptIds.includes(t.id))`). -/
def idsOf (t : RawTopic) : List String :=
  t.transcriptIds.getD []

/-- All member ids over a produced cluster list, in order. -/
def clusterIdsAll (topics : List RawTopic) : List String :=
  topics.flatMap idsOf

/-- A topic as it sits inside the `topics` column of a `topic_clusters`
row: the cluster fields plus an optional `transcripts` field, present
exactly when the writer enriched the cluster with full transcript objects
before persisting. -/
structure StoredTopic where
  raw : RawTopic
  transcripts : Option (List Transcript)
deriving DecidableEq, Inhabited

/-- The relevant columns of one `topic_clusters` upsert
(`user_id`/`cluster_date`/`updated_at` carry no claim content and are
omitted). -/
structure UpsertPayload where
  topics : List StoredTopic
  transcription_count : Nat
deriving DecidableEq, Inhabited

/-- A persisted payload is lean when no stored cluster carries a
`transcripts` field (hence no transcript text). -/
def leanUpsert (w : UpsertPayload) : Prop :=
  ∀ st ∈ w.topics, st.transcripts = none

instance (w : UpsertPayload) : Decidable (leanUpsert w) :=
  List.decidableBAll _ _

/-- The clustering route's own upsert
(`await supabase.from('topic_clusters').upsert({ ..., topics: allTopics, transcription_count: transcriptions.length, ... })`):
the produced clusters are written as-is, without a `transcripts` field,
with the fetched transcript count. -/
def routeWritePayload (resp : Nat → Option (List RawTopic))
    (transcripts : List Transcript) : UpsertPayload where
  topics := (runFullCluster resp transcripts).map (fun r => ⟨r, none⟩)
  transcription_count := transcripts.length

/-- The per-topic body of the route's response enrichment
(`topics.map(topic => ({...topic, transcripts: transcriptions.filter(t => topic.transcriptIds.includes(t.id))}))`),
for topics whose `transcriptIds` field is present. -/
def enrichMap (topics : List RawTopic)
    (transcriptions : List Transcript) : List StoredTopic :=
  topics.map (fun r =>
    ⟨r, some (transcriptions.filter (fun t => (idsOf r).contains t.id))⟩)

/-- The route's response enrichment.  When some topic lacks a
`transcriptIds` field, the source's `topic.transcriptIds.includes(t.id)`
throws a TypeError (for a non-empty transcript list, whose elements drive
the filter callback): the route's outer `catch` then answers 500 —
modelled by `none`.  Otherwise the enrichment succeeds. -/
def enrichForResponse (topics : List RawTopic)
    (transcriptions : List Transcript) : Option (List StoredTopic) :=
  if topics.all (fun t => t.transcriptIds.isSome) then
    some (enrichMap topics transcriptions)
  else none

/-- The columns the cron job reads from an existing `topic_clusters` row
(`select('updated_at, transcription_count')`), with `updated_at` as epoch
milliseconds. -/
structure ExistingClusterRecord where
  updated_at : Int
  transcription_count : Nat
deriving DecidableEq, Inhabited

/-- The cron job's freshness test
(`lastUpdate > hourAgo && existingCluster.transcription_count === transcriptions.length`
with `hourAgo = new Date(Date.now() - 60 * 60 * 1000)`). -/
def isFresh (now : Int) (existing : ExistingClusterRecord)
    (currentCount : Nat) : Bool :=
  (now - 60 * 60 * 1000 < existing.updated_at) &&
    (existing.transcription_count == currentCount)

/-- Outcome of the cron job's single completion call, at the seams of its
parse block: `noArrayMatch` when `response.match(/\[[\s\S]*\]/)` finds
nothing (the `topics` variable stays `[]`), `parseError` when `JSON.parse`
throws (the `catch` substitutes the "Daily Conversations" fallback), and
`parsed l` when a JSON array is obtained. -/
inductive CronCompletion where
  | noArrayMatch
  | parseError
  | parsed (topics : List RawTopic)
deriving DecidableEq, Inhabited

/-- What the cron job does for one user: `continue` without transcripts,
skip when the existing record is fresh, otherwise run and upsert — or fail
with the per-user `catch` (which writes nothing). -/
inductive CronStepResult where
  | noTranscripts
  | skipped
  | errored
  | ran (write : UpsertPayload)
deriving DecidableEq, Inhabited

/-- The cron job's  "Daily Conversations" fallback cluster, substituted
inside its `catch (parseError)` block. -/
def dailyFallbackCluster (transcriptions : List Transcript) : RawTopic where
  id := some "topic_1"
  title := some "Daily Conversations"
  category := some "General"
  summary := some "Various conversations throughout the day"
  sections := some []
  transcriptIds := some (transcriptions.map (·.id))
  startTime := transcriptions.head?.map (·.date)
  endTime := transcriptions.getLast?.map (·.date)

/-- The run-and-upsert tail of the cron job's per-user body: build
`topics` from the parse outcome, enrich every topic with the full
transcript objects
(`topics.map(topic => ({...topic, transcripts: transcriptions.filter(...)}))`),
and upsert `topics: enrichedTopics` together with the transcript count.
A topic without a `transcriptIds` field would make the source's
`topic.transcriptIds.includes` throw into the per-user `catch`, modelled
by `errored`. -/
def cronRun (transcriptions : List Transcript) (resp : CronCompletion) :
    CronStepResult :=
  let topics : List RawTopic :=
    match resp with
    | .noArrayMatch => []
    | .parseError => [dailyFallbackCluster transcriptions]
    | .parsed l => l
  if topics.all (fun t => t.transcriptIds.isSome) then
    .ran
      { topics := topics.map (fun r =>
          ⟨r, some (transcriptions.filter (fun t =>
            (idsOf r).contains t.id))⟩)
        transcription_count := transcriptions.length }
  else .errored

/-- One iteration of the cron job's user loop
(`src/alfred-pwa/app/api/cron/cluster-topics/route.ts`): `continue` when
the user has no transcripts today, skip recomputation when an existing
cluster row is fresh, otherwise call the completion service and upsert. -/
def cronUserStep (now : Int) (existing : Option ExistingClusterRecord)
    (transcriptions : List Transcript) (resp : CronCompletion) :
    CronStepResult :=
  if transcriptions.isEmpty then .noTranscripts
  else
    match existing with
    | some e =>
      if isFresh now e transcriptions.length then .skipped
      else cronRun transcriptions resp
    | none => cronRun transcriptions resp

/-- A cron outcome keeps the lean-storage invariant when it either writes
nothing or writes a lean payload. -/
def leanCronResult : CronStepResult → Prop
  | .ran w => leanUpsert w
  | _ => True

instance : DecidablePred leanCronResult := fun r =>
  match r with
  | .ran w => (inferInstance : Decidable (leanUpsert w))
  | .noTranscripts => isTrue trivial
  | .skipped => isTrue trivial
  | .errored => isTrue trivial

/-- A topic as typed by the date page's `TopicCluster` interface
(`src/unnamed/part_011`): all fields present, `transcripts` holding the
enriched transcript objects (the page's own code defends a missing field
only via `t.transcripts || []` / `t.sections || []`). -/
structure PageTopic where
  id : String
  title : String
  category : String
  summary : String
  sections : List TopicSection
  transcriptIds : List String
  transcripts : List Transcript
  startTime : Int
  endTime : Int
deriving DecidableEq, Inhabited

/-- Serialising a page topic back to the persisted cluster shape (all
fields present). -/
def pageToRaw (p : PageTopic) : RawTopic where
  id := some p.id
  title := some p.title
  category := some p.category
  summary := some p.summary
  sections := some p.sections
  transcriptIds := some p.transcriptIds
  startTime := some p.startTime
  endTime := some p.endTime

/-- Embeds `saveTopics` from the date page: strip the `transcripts` field from
every topic (`const topicsForStorage = newTopics.map(({ transcripts, ...rest }) => rest)`)
and upsert the lean set with `transcription_count: transcriptions.length`. -/
def saveTopicsPayload (newTopics : List PageTopic)
    (transcriptionsCount : Nat) : UpsertPayload where
  topics := newTopics.map (fun p => ⟨pageToRaw p, none⟩)
  transcription_count := transcriptionsCount

/-- Recursion core of `jsSetDedup`, bounded by a fuel that starts at the
list length (filtering never lengthens the tail). -/
def jsSetDedupAux : Nat → List String → List String
  | _, [] => []
  | 0, l => l
  | fuel + 1, x :: xs =>
    x :: jsSetDedupAux fuel (xs.filter (fun y => y ≠ x))

/-- JavaScript `Array.from(new Set(xs))`: deduplication keeping the first
occurrence of each element, in insertion order. -/
def jsSetDedup (l : List String) : List String :=
  jsSetDedupAux l.length l

instance : DecidableRel (fun a b : PageTopic => b.startTime ≤ a.startTime) :=
  fun a b => Int.decLe b.startTime a.startTime

/-- The page's descending display sort
(`sort((a, b) => new Date(b.startTime).getTime() - new Date(a.startTime).getTime())`). -/
def sortTopicsDesc (l : List PageTopic) : List PageTopic :=
  List.insertionSort (fun a b : PageTopic => b.startTime ≤ a.startTime) l

/-- Embeds `allTranscripts.sort((a, b) => new Date(a.date).getTime() - new Date(b.date).getTime())`
inside `handleMergeTopics`. -/
def sortTranscriptsAsc (l : List Transcript) : List Transcript :=
  List.insertionSort (fun a b : Transcript => a.date ≤ b.date) l

/-- The merged topic built by `handleMergeTopics` from the selected topics
`first :: rest` (the source's `toMerge`, known non-empty where the merged
topic is built). -/
def mergedTopicOf (now : Int) (first : PageTopic) (rest : List PageTopic) :
    PageTopic :=
  let toMerge := first :: rest
  let allTranscripts := sortTranscriptsAsc (toMerge.flatMap (·.transcripts))
  let allTranscriptIds := toMerge.flatMap (·.transcriptIds)
  { id := "merged_" ++ toString now
    title := String.intercalate " + " (toMerge.map (·.title))
    category := first.category
    summary := String.intercalate " " (toMerge.map (·.summary))
    sections := toMerge.flatMap (·.sections)
    transcriptIds := jsSetDedup allTranscriptIds
    transcripts := allTranscripts
    startTime :=
      match allTranscripts.head? with
      | some t => t.date
      | none => first.startTime
    endTime :=
      match allTranscripts.getLast? with
      | some t => t.date
      | none => (toMerge.getLast (List.cons_ne_nil first rest)).endTime }

/-- Embeds `handleMergeTopics` from the date page: requires at least two selected
ids, splits the topic list into `toMerge`/`remaining`, builds the merged
topic, sorts, sets state and saves.  `none` models the early return
(`selectedTopics.size < 2`) and the crash on `toMerge[0]` when no topic
matches — in both cases nothing is written.  The result pairs the new
topic list with the `saveTopics` upsert payload. -/
def handleMergeTopics (now : Int) (selected : List String)
    (topics : List PageTopic) (transcriptionsCount : Nat) :
    Option (List PageTopic × UpsertPayload) :=
  if selected.length < 2 then none
  else
    match topics.filter (fun t => selected.contains t.id) with
    | [] => none
    | first :: rest =>
      let merged := mergedTopicOf now first rest
      let newTopics :=
        sortTopicsDesc
          (topics.filter (fun t => ¬ selected.contains t.id) ++ [merged])
      some (newTopics, saveTopicsPayload newTopics transcriptionsCount)

instance : DecidableRel
    (fun a b : StoredTopic =>
      b.raw.startTime.getD 0 ≤ a.raw.startTime.getD 0) :=
  fun a b => Int.decLe (b.raw.startTime.getD 0) (a.raw.startTime.getD 0)

/-- The page's descending sort applied to stored-shape topics (used when
merging freshly returned clusters into the page state). -/
def sortStoredDesc (l : List StoredTopic) : List StoredTopic :=
  List.insertionSort
    (fun a b : StoredTopic =>
      b.raw.startTime.getD 0 ≤ a.raw.startTime.getD 0) l

/-- Stripping one stored topic for `saveTopics`. -/
def stripStored (st : StoredTopic) : StoredTopic :=
  ⟨st.raw, none⟩

instance : DecidableRel (fun a b : Transcript => b.date ≤ a.date) :=
  fun a b => Int.decLe b.date a.date

/-- The page's `unclusteredTranscripts` memo: empty when there are no
topics, otherwise the transcripts whose id appears in no topic's
`transcriptIds` and is not trashed, sorted newest first. -/
def unclusteredOf (topics : List StoredTopic)
    (transcriptions : List Transcript) (trashed : List String) :
    List Transcript :=
  if topics.isEmpty then []
  else
    let clusteredIds := topics.flatMap (fun t => t.raw.transcriptIds.getD [])
    List.insertionSort (fun a b : Transcript => b.date ≤ a.date)
      (transcriptions.filter (fun t =>
        ¬ clusteredIds.contains t.id ∧ ¬ trashed.contains t.id))

/-- The upserts performed, in order, by one `handleClusterNew` flow on the
date page.  The page posts `{date, transcriptIds: unclustered ids}` to the
clustering route; because `date` is set, the route itself upserts the
clusters it computed over just those transcripts (fetched back sorted
ascending by date) with `transcription_count` equal to that subset's
length.  If the route's subsequent response enrichment throws (a produced
topic lacking `transcriptIds`), the route answers 500 after that first
upsert, the page's `!response.ok` check throws, and `saveTopics` never
runs — only the partial write remains.  Otherwise the page appends the
returned enriched topics to its existing set, sorts, and `saveTopics`
performs the second upsert with the full transcript count. -/
def handleClusterNewWrites (resp : Nat → Option (List RawTopic))
    (pageTopics : List StoredTopic) (transcriptions : List Transcript)
    (trashed : List String) : List UpsertPayload :=
  let unclustered := unclusteredOf pageTopics transcriptions trashed
  if unclustered.isEmpty then []
  else
    let delta := sortTranscriptsAsc unclustered
    let routeOut := runFullCluster resp delta
    let w1 := routeWritePayload resp delta
    match enrichForResponse routeOut delta with
    | none => [w1]
    | some dataTopics =>
      if dataTopics.isEmpty then [w1]
      else
        let newTopics := sortStoredDesc (pageTopics ++ dataTopics)
        [w1, ⟨newTopics.map stripStored, transcriptions.length⟩]

/-! Concrete data used by scenario witnesses and counterexamples. -/

/-- A sample transcript with numbered id, given timestamp and empty text. -/
def sampleT (n : Nat) (d : Int) : Transcript :=
  ⟨"t" ++ toString n, d, ""⟩

/-- A transcript whose `transcription` text is non-empty. -/
def tHello : Transcript := ⟨"t1", 0, "hello"⟩

/-- A second, later transcript. -/
def tNew : Transcript := ⟨"t2", 50, "more"⟩

/-- A parsed topic with every expected field absent (a JSON object such as
`{"foo": 1}` inside the response array). -/
def rtEmptyFields : RawTopic :=
  ⟨none, none, none, none, none, none, none, none⟩

/-- A parsed topic whose `transcriptIds` name no actual transcript. -/
def rtWrongIds : RawTopic :=
  ⟨none, none, none, none, none, some ["zzz"], none, none⟩

/-- A parsed topic with correct member ids but model-hallucinated
timestamps. -/
def rtWrongTimes : RawTopic :=
  ⟨none, none, none, none, none, some ["t1"], some 999, some 999⟩

/-- A fully well-formed parsed topic covering `tHello`. -/
def rtGood : RawTopic :=
  ⟨some "topic_1", some "A", some "General", some "s", some [],
    some ["t1"], some 0, some 0⟩

/-- Two distinct transcripts sharing one timestamp. -/
def tieA : Transcript := ⟨"a", 0, ""⟩

/-- Two distinct transcripts sharing one timestamp. -/
def tieB : Transcript := ⟨"b", 0, ""⟩

/-- An existing page topic covering exactly `tHello`. -/
def pageTopicEx : StoredTopic :=
  ⟨⟨some "c1", some "Existing", some "General", some "s", some [],
      some ["t1"], some 0, some 0⟩, some [tHello]⟩

/-- A page topic holding transcript `t1` at time 5. -/
def pageA : PageTopic :=
  ⟨"a", "TA", "General", "sa", [], ["t1"], [⟨"t1", 5, "x"⟩], 5, 5⟩

/-- A page topic holding transcript `t2` at time 9, with an overlapping
member id. -/
def pageB : PageTopic :=
  ⟨"b", "TB", "General", "sb", [], ["t2", "t1"], [⟨"t2", 9, "y"⟩], 9, 9⟩

/-- A one-segment list of five transcripts a minute apart. -/
def fiveSeg : List Transcript :=
  [sampleT 1 0, sampleT 2 60000, sampleT 3 120000, sampleT 4 180000,
    sampleT 5 240000]

/-- Ten transcripts for the freshness scenario. -/
def tenTranscripts : List Transcript :=
  [sampleT 1 0, sampleT 2 1, sampleT 3 2, sampleT 4 3, sampleT 5 4,
    sampleT 6 5, sampleT 7 6, sampleT 8 7, sampleT 9 8, sampleT 10 9]

/-! Helper lemmas about the Batch Planner. -/

theorem chunksOfAux_flatten (fuel : Nat) :
    ∀ (n : Nat) (l : List Transcript), 0 < n → l.length ≤ fuel →
      (chunksOfAux fuel n l).flatten = l := by
  induction fuel with
  | zero =>
    intro n l _ hl
    have : l = [] := List.length_eq_zero.mp (Nat.le_zero.mp hl)
    subst this
    simp [chunksOfAux]
  | succ fuel ih =>
    intro n l hn hl
    cases l with
    | nil => simp [chunksOfAux]
    | cons x xs =>
      rw [chunksOfAux]
      simp only [List.flatten_cons]
      simp only [List.length_cons] at hl
      rw [ih n ((x :: xs).drop n) hn
        (by simp only [List.length_drop, List.length_cons]; omega)]
      exact List.take_append_drop _ _

theorem chunksOf_flatten (n : Nat) (l : List Transcript) :
    (chunksOf n l).flatten = l := by
  rw [chunksOf]
  by_cases hn : n = 0
  · simp [hn]
  · rw [if_neg hn]
    exact chunksOfAux_flatten l.length n l (Nat.pos_of_ne_zero hn) le_rfl

theorem chunksOfAux_length_le (fuel : Nat) :
    ∀ (n : Nat) (l : List Transcript), 0 < n → l.length ≤ fuel →
      ∀ c ∈ chunksOfAux fuel n l, c.length ≤ n := by
  induction fuel with
  | zero =>
    intro n l _ hl
    have : l = [] := List.length_eq_zero.mp (Nat.le_zero.mp hl)
    subst this
    simp [chunksOfAux]
  | succ fuel ih =>
    intro n l hn hl c hc
    cases l with
    | nil => simp [chunksOfAux] at hc
    | cons x xs =>
      rw [chunksOfAux] at hc
      simp only [List.length_cons] at hl
      rcases List.mem_cons.mp hc with h | h
      · subst h
        simpa using List.length_take_le _ _
      · exact ih n ((x :: xs).drop n) hn
          (by simp only [List.length_drop, List.length_cons]; omega) c h

theorem chunksOf_length_le (n : Nat) (hn : 0 < n) (l : List Transcript) :
    ∀ c ∈ chunksOf n l, c.length ≤ n := by
  rw [chunksOf, if_neg (Nat.pos_iff_ne_zero.mp hn)]
  exact chunksOfAux_length_le l.length n l hn le_rfl

theorem createBatchesGo_flatten (maxB : Nat) (segs : List (List Transcript)) :
    ∀ cur, (createBatchesGo maxB segs cur).flatten = cur ++ segs.flatten := by
  induction segs with
  | nil =>
    intro cur
    by_cases h : 0 < cur.length
    · simp [createBatchesGo, h]
    · have : cur = [] := by
        cases cur with
        | nil => rfl
        | cons a t => simp at h
      simp [createBatchesGo, h, this]
  | cons g rest ih =>
    intro cur
    rw [createBatchesGo]
    split
    · by_cases h : 0 < cur.length
      · simp [h, chunksOf_flatten, ih]
      · have : cur = [] := by
          cases cur with
          | nil => rfl
          | cons a t => simp at h
        simp [h, this, chunksOf_flatten, ih]
    · split
      · simp [ih]
      · simp [ih]

theorem createBatchesGo_length_le (maxB : Nat) (hm : 0 < maxB)
    (segs : List (List Transcript)) :
    ∀ cur, cur.length ≤ maxB →
      ∀ b ∈ createBatchesGo maxB segs cur, b.length ≤ maxB := by
  induction segs with
  | nil =>
    intro cur hcur b hb
    rw [createBatchesGo] at hb
    split at hb
    · rcases List.mem_singleton.mp hb with rfl
      exact hcur
    · simp at hb
  | cons g rest ih =>
    intro cur hcur b hb
    rw [createBatchesGo] at hb
    split at hb
    · rcases List.mem_append.mp hb with h | h
      · rcases List.mem_append.mp h with h2 | h2
        · split at h2
          · rcases List.mem_singleton.mp h2 with rfl
            exact hcur
          · simp at h2
        · exact chunksOf_length_le maxB hm g b h2
      · exact ih [] (by simpa using Nat.le_of_lt hm) b h
    · rename_i hg
      split at hb
      · rcases List.mem_cons.mp hb with rfl | h
        · exact hcur
        · exact ih g (by omega) b h
      · rename_i hsum
        exact ih (cur ++ g) (by simp only [List.length_append]; omega) b hb

/-- C5: the Batch Planner never exceeds the batch bound, keeps every
transcript exactly once, and concatenating the batches in order
reproduces the concatenation of the input segments (preserving overall
chronological order). -/
theorem C5_batch_planner (maxB : Nat) (hm : 0 < maxB)
    (segs : List (List Transcript)) :
    (createBatches maxB segs).flatten = segs.flatten ∧
    ∀ b ∈ createBatches maxB segs, b.length ≤ maxB :=
  ⟨by simpa using createBatchesGo_flatten maxB segs [],
   fun b hb =>
     createBatchesGo_length_le maxB hm segs [] (Nat.zero_le _) b hb⟩

/-- C5 witness: with `MAX_BATCH_SIZE = 2`, one segment of five transcripts
yields exactly three batches of sizes `[2, 2, 1]` covering all five ids
once, and the general theorem holds at this instance. -/
theorem C5_batch_planner_witness :
    (0 < 2 ∧
      ((createBatches 2 [fiveSeg]).flatten = [fiveSeg].flatten ∧
        ∀ b ∈ createBatches 2 [fiveSeg], b.length ≤ 2)) ∧
    (createBatches 2 [fiveSeg]).map List.length = [2, 2, 1] ∧
    (createBatches 2 [fiveSeg]).flatten.map (·.id) =
      ["t1", "t2", "t3", "t4", "t5"] :=
  ⟨⟨by decide, C5_batch_planner 2 (by decide) [fiveSeg]⟩,
   by decide, by decide⟩

/-- C10: whenever at most `MAX_BATCH_SIZE` transcripts are fetched, the
route bypasses the Segmenter and Batch Planner and processes everything as
a single batch with index 0 of 1; segmentation drives batching only above
the bound. -/
theorem C10_small_dataset_single_batch (resp : Nat → Option (List RawTopic))
    (ts : List Transcript) (h : ts.length ≤ MAX_BATCH_SIZE) :
    planRun ts = [ts] ∧
    runFullCluster resp ts = processBatch (resp 0) ts 0 1 ∧
    ∀ ts2 : List Transcript, MAX_BATCH_SIZE < ts2.length →
      planRun ts2 = createBatches MAX_BATCH_SIZE (groupByTimeProximity ts2) := by
  refine ⟨by simp [planRun, h], ?_, ?_⟩
  · simp [runFullCluster, planRun, h, List.enum]
  · intro ts2 h2
    simp [planRun, Nat.not_le.mpr h2]

/-- C10 witness: two transcripts two hours apart (a conversation gap the
Segmenter would split) are still submitted as one single batch, because
the dataset is below the bound. -/
theorem C10_small_dataset_single_batch_witness :
    ([sampleT 1 0, sampleT 2 7200000].length ≤ MAX_BATCH_SIZE ∧
      planRun [sampleT 1 0, sampleT 2 7200000] =
        [[sampleT 1 0, sampleT 2 7200000]]) ∧
    groupByTimeProximity [sampleT 1 0, sampleT 2 7200000] =
      [[sampleT 1 0], [sampleT 2 7200000]] :=
  ⟨⟨by decide,
    (C10_small_dataset_single_batch (fun _ => none)
      [sampleT 1 0, sampleT 2 7200000] (by decide)).1⟩,
   by decide⟩

/-! The cron job's freshness skip. -/

theorem cronRun_ne_skipped (transcriptions : List Transcript)
    (resp : CronCompletion) : cronRun transcriptions resp ≠ .skipped := by
  simp only [cronRun]
  split <;> simp

/-- C9: one cron iteration with an existing stored record skips
recomputation exactly when the record is younger than the 60-minute window
and its stored transcript count matches the current one; the skip happens
for every possible completion outcome (so no completion call can influence
it) and produces no write. -/
theorem C9_freshness_skip (now : Int) (e : ExistingClusterRecord)
    (ts : List Transcript) (hts : ts ≠ []) (resp : CronCompletion) :
    (cronUserStep now (some e) ts resp = .skipped ↔
      (now - e.updated_at < 60 * 60 * 1000 ∧
        e.transcription_count = ts.length)) ∧
    ∀ w, cronUserStep now (some e) ts resp = .skipped →
      cronUserStep now (some e) ts resp ≠ .ran w := by
  have hni : ts.isEmpty = false := by
    cases ts with
    | nil => exact absurd rfl hts
    | cons a t => rfl
  constructor
  · rw [cronUserStep, hni]
    simp only [Bool.false_eq_true, if_false]
    by_cases hf : isFresh now e ts.length
    · rw [if_pos hf]
      rw [isFresh, Bool.and_eq_true, decide_eq_true_iff, beq_iff_eq] at hf
      simp only [true_iff]
      exact ⟨by omega, hf.2⟩
    · rw [if_neg hf]
      rw [isFresh, Bool.and_eq_true, decide_eq_true_iff, beq_iff_eq] at hf
      constructor
      · intro h
        exact absurd h (cronRun_ne_skipped ts resp)
      · intro h
        exact absurd ⟨by omega, h.2⟩ hf
  · intro w hsk hran
    rw [hsk] at hran
    exact CronStepResult.noConfusion hran

/-- C9 witness: a record stored five minutes ago with count 10, and ten
current transcripts, makes the cron iteration skip. -/
theorem C9_freshness_skip_witness :
    (tenTranscripts ≠ [] ∧
      ((0 : Int) - (-300000) < 60 * 60 * 1000 ∧ 10 = tenTranscripts.length)) ∧
    cronUserStep 0 (some ⟨-300000, 10⟩) tenTranscripts .noArrayMatch =
      .skipped :=
  ⟨⟨by decide, by decide, by decide⟩,
   (C9_freshness_skip 0 ⟨-300000, 10⟩ tenTranscripts (by decide)
      .noArrayMatch).1.mpr ⟨by decide, by decide⟩⟩

/-! The Response Interpreter's fallback behaviour. -/

/-- C2 (amended): `processBatch` never propagates a failure (it always
returns a non-empty cluster list), and whenever the gateway outcome is a
thrown error, a response without an array-shaped substring, a parse
failure (all modelled by `none`) or an empty parsed array, it returns
exactly the single fallback cluster with the claimed title, category,
empty sections, all of the batch's transcript ids, and the batch's first
and last timestamps.  (Parsed non-empty arrays, however, are returned
as-is: objects lacking `transcriptIds` are not replaced by the fallback —
see the counterexample.) -/
theorem C2_interpreter_fallback (resp : Option (List RawTopic))
    (batch : List Transcript) (bi n : Nat) (hb : batch ≠ []) :
    processBatch resp batch bi n ≠ [] ∧
    ((resp = none ∨ resp = some []) →
      processBatch resp batch bi n = [fallbackCluster batch bi] ∧
      (fallbackCluster batch bi).title =
        some ("Conversations (Part " ++ toString (bi + 1) ++ ")") ∧
      (fallbackCluster batch bi).category = some "General" ∧
      (fallbackCluster batch bi).sections = some [] ∧
      (fallbackCluster batch bi).transcriptIds = some (batch.map (·.id)) ∧
      (fallbackCluster batch bi).startTime = some ((batch.head hb).date) ∧
      (fallbackCluster batch bi).endTime = some ((batch.getLast hb).date)) := by
  constructor
  · cases resp with
    | none => simp [processBatch]
    | some parsed =>
      simp only [processBatch]
      split
      · rename_i hp
        intro hcon
        have := congrArg List.length hcon
        simp only [List.length_map, List.enum_length, List.length_nil] at this
        omega
      · simp
  · intro hfail
    have hpb : processBatch resp batch bi n = [fallbackCluster batch bi] := by
      rcases hfail with h | h <;> subst h <;> simp [processBatch]
    refine ⟨hpb, rfl, rfl, rfl, rfl, ?_, ?_⟩
    · rw [fallbackCluster]
      simp [List.head?_eq_head hb]
    · rw [fallbackCluster]
      simp [List.getLast?_eq_getLast batch hb]

/-- C2 witness: the fallback at a concrete one-transcript batch with a
gateway failure. -/
theorem C2_interpreter_fallback_witness :
    ([tHello] ≠ [] ∧ ((none : Option (List RawTopic)) = none ∨ False)) ∧
    (processBatch none [tHello] 0 1 ≠ [] ∧
      processBatch none [tHello] 0 1 = [fallbackCluster [tHello] 0] ∧
      (fallbackCluster [tHello] 0).transcriptIds = some ["t1"] ∧
      (fallbackCluster [tHello] 0).title = some "Conversations (Part 1)") :=
  ⟨⟨by decide, Or.inl rfl⟩,
   by
    have h := C2_interpreter_fallback none [tHello] 0 1 (by decide)
    have h2 := h.2 (Or.inl rfl)
    exact ⟨h.1, h2.1, by decide, by decide⟩⟩

/-- C2 counterexample: the source does not validate that parsed objects
carry `memberIds`/`transcriptIds`.  A parsed non-empty array whose single
object lacks every field is returned with only its id rewritten — not
replaced by the fallback cluster whose `transcriptIds` would be the
batch's ids. -/
theorem C2_counterexample :
    processBatch (some [rtEmptyFields]) [tHello] 0 1 =
      [{ rtEmptyFields with id := some "batch0_topic_1" }] ∧
    (processBatch (some [rtEmptyFields]) [tHello] 0 1).map (·.transcriptIds) =
      [none] ∧
    processBatch (some [rtEmptyFields]) [tHello] 0 1 ≠
      [fallbackCluster [tHello] 0] := by decide

/-! Model-supplied cluster timestamps are passed through. -/

/-- C4 (amended): for parsed clusters the engine keeps the model-supplied
`startTime`/`endTime` untouched (only `id` is rewritten); recomputation
from member transcripts happens only for the fallback cluster, whose
bounds are the batch's first and last timestamps. -/
theorem C4_times_passthrough (parsed : List RawTopic) (hp : parsed ≠ [])
    (batch : List Transcript) (bi n : Nat) :
    (processBatch (some parsed) batch bi n).map (·.startTime) =
      parsed.map (·.startTime) ∧
    (processBatch (some parsed) batch bi n).map (·.endTime) =
      parsed.map (·.endTime) ∧
    (∀ hb : batch ≠ [],
      (fallbackCluster batch bi).startTime = some ((batch.head hb).date) ∧
      (fallbackCluster batch bi).endTime = some ((batch.getLast hb).date)) := by
  have hlen : 0 < parsed.length := List.length_pos.mpr hp
  have hmap : ∀ f : RawTopic → Option Int,
      (∀ (s : Option String) (t : RawTopic), f { t with id := s } = f t) →
      (processBatch (some parsed) batch bi n).map f = parsed.map f := by
    intro f hf
    simp only [processBatch]
    rw [if_pos hlen]
    rw [List.map_map]
    calc parsed.enum.map (f ∘ fun p : Nat × RawTopic =>
          { p.2 with
            id := some ("batch" ++ toString bi ++ "_topic_" ++
              toString (p.1 + 1)) })
        = parsed.enum.map (f ∘ Prod.snd) := by
          apply List.map_congr_left
          intro p _
          exact hf _ p.2
      _ = (parsed.enum.map Prod.snd).map f := by rw [List.map_map]
      _ = parsed.map f := by rw [List.enum_map_snd]
  refine ⟨hmap _ (fun s t => rfl), hmap _ (fun s t => rfl), ?_⟩
  intro hb
  constructor
  · rw [fallbackCluster]
    simp [List.head?_eq_head hb]
  · rw [fallbackCluster]
    simp [List.getLast?_eq_getLast batch hb]

/-- C4 witness: pass-through at a concrete parsed topic. -/
theorem C4_times_passthrough_witness :
    ([rtWrongTimes] ≠ [] ∧
      (processBatch (some [rtWrongTimes]) [tHello] 0 1).map (·.startTime) =
        [rtWrongTimes].map (·.startTime)) ∧
    [rtWrongTimes].map (·.startTime) = [some 999] :=
  ⟨⟨by decide,
    (C4_times_passthrough [rtWrongTimes] (by decide) [tHello] 0 1).1⟩,
   by decide⟩

/-- C4 counterexample: a parsed cluster whose only member transcript has
timestamp 0 but whose model-supplied bounds are 999 keeps 999 in the
assembled cluster — the engine does not recompute from the member
transcripts. -/
theorem C4_counterexample :
    (processBatch (some [rtWrongTimes]) [tHello] 0 1).map (·.transcriptIds) =
      [some ["t1"]] ∧
    (processBatch (some [rtWrongTimes]) [tHello] 0 1).map (·.startTime) =
      [some 999] ∧
    (processBatch (some [rtWrongTimes]) [tHello] 0 1).map (·.endTime) =
      [some 999] ∧
    [tHello].map (·.date) = [0] ∧ (999 : Int) ≠ 0 := by decide

/-! Lean persistence. -/

/-- C3 (amended): the clustering route's own upsert and every upsert the
date page performs (its `saveTopics`, also used after merge, rename,
delete and the cluster-new append flow) persist clusters without a
`transcripts` field — ids only, never transcript text; the cron job's
upsert, however, persists enriched clusters that do carry full transcript
objects including their text, as witnessed by the concrete run in the
final conjunct. -/
theorem C3_lean_write_paths (resp : Nat → Option (List RawTopic))
    (ts : List Transcript) (pageTopics : List PageTopic) (cnt : Nat)
    (storedTopics : List StoredTopic) (transcriptions : List Transcript)
    (trashed : List String) :
    leanUpsert (routeWritePayload resp ts) ∧
    leanUpsert (saveTopicsPayload pageTopics cnt) ∧
    (∀ w ∈ handleClusterNewWrites resp storedTopics transcriptions trashed,
      leanUpsert w) ∧
    ¬ leanCronResult (cronUserStep 0 none [tHello] (.parsed [rtGood])) := by
  refine ⟨?_, ?_, ?_, by decide⟩
  · intro st hst
    rw [routeWritePayload] at hst
    simp only [List.mem_map] at hst
    obtain ⟨r, _, rfl⟩ := hst
    rfl
  · intro st hst
    rw [saveTopicsPayload] at hst
    simp only [List.mem_map] at hst
    obtain ⟨p, _, rfl⟩ := hst
    rfl
  · have hroute : leanUpsert (routeWritePayload resp
        (sortTranscriptsAsc
          (unclusteredOf storedTopics transcriptions trashed))) := by
      intro st hst
      rw [routeWritePayload] at hst
      simp only [List.mem_map] at hst
      obtain ⟨r, _, rfl⟩ := hst
      rfl
    intro w hw
    simp only [handleClusterNewWrites] at hw
    split at hw
    · simp at hw
    · split at hw
      · rcases List.mem_singleton.mp hw with rfl
        exact hroute
      · split at hw
        · rcases List.mem_singleton.mp hw with rfl
          exact hroute
        · rcases List.mem_cons.mp hw with rfl | hw2
          · exact hroute
          · rcases List.mem_singleton.mp hw2 with rfl
            intro st hst
            simp only [List.mem_map] at hst
            obtain ⟨p, _, rfl⟩ := hst
            rfl

/-- C3 counterexample: the cron job enriches topics with full transcript
objects before upserting (`topics: enrichedTopics`), so its persisted
record carries transcript text — here the stored cluster carries `tHello`
whose `transcription` is `"hello"`. -/
theorem C3_counterexample :
    cronUserStep 0 none [tHello] (.parsed [rtGood]) =
      .ran ⟨[⟨rtGood, some [tHello]⟩], 1⟩ ∧
    ¬ leanCronResult (cronUserStep 0 none [tHello] (.parsed [rtGood])) ∧
    tHello.transcription = "hello" := by decide

/-! Segmenter lemmas. -/

theorem segAux_flatten (rest : List Transcript) :
    ∀ prev cur, (segAux prev cur rest).flatten = cur ++ rest := by
  induction rest with
  | nil => intro prev cur; simp [segAux]
  | cons t r ih =>
    intro prev cur
    rw [segAux]
    split
    · simp [ih]
    · rw [ih]
      simp

theorem groupByTimeProximity_flatten (l : List Transcript) :
    (groupByTimeProximity l).flatten = sortByDate l := by
  cases h : sortByDate l with
  | nil => simp [groupByTimeProximity, h]
  | cons t rest => simp [groupByTimeProximity, h, segAux_flatten]

theorem segAux_ne_nil (rest : List Transcript) :
    ∀ prev cur, cur ≠ [] → ∀ s ∈ segAux prev cur rest, s ≠ [] := by
  induction rest with
  | nil =>
    intro prev cur hc s hs
    rw [segAux] at hs
    rcases List.mem_singleton.mp hs with rfl
    exact hc
  | cons t r ih =>
    intro prev cur hc s hs
    rw [segAux] at hs
    split at hs
    · rcases List.mem_cons.mp hs with rfl | h
      · exact hc
      · exact ih t [t] (by simp) s h
    · exact ih t (cur ++ [t]) (by simp) s hs

theorem segAux_chain (rest : List Transcript) :
    ∀ prev cur, cur.getLast? = some prev →
      List.Chain' (fun a b : Transcript =>
        b.date - a.date ≤ CONVERSATION_GAP_MINUTES * 60000) cur →
      ∀ s ∈ segAux prev cur rest,
        List.Chain' (fun a b : Transcript =>
          b.date - a.date ≤ CONVERSATION_GAP_MINUTES * 60000) s := by
  induction rest with
  | nil =>
    intro prev cur _ hchain s hs
    rw [segAux] at hs
    rcases List.mem_singleton.mp hs with rfl
    exact hchain
  | cons t r ih =>
    intro prev cur hlast hchain s hs
    rw [segAux] at hs
    split at hs
    · rcases List.mem_cons.mp hs with rfl | h
      · exact hchain
      · exact ih t [t] rfl (List.chain'_singleton t) s h
    · rename_i hgap
      refine ih t (cur ++ [t]) (List.getLast?_concat _) ?_ s hs
      rw [List.chain'_append]
      refine ⟨hchain, List.chain'_singleton t, ?_⟩
      intro x hx y hy
      rw [hlast] at hx
      simp only [Option.mem_some_iff] at hx
      simp only [List.head?_cons, Option.mem_some_iff] at hy
      subst hx
      subst hy
      simp only [gapExceeded, CONVERSATION_GAP_MINUTES,
        decide_eq_true_eq] at hgap
      simp only [CONVERSATION_GAP_MINUTES]
      omega

theorem segAux_head (rest : List Transcript) :
    ∀ prev cur, ∃ s tail, segAux prev cur rest = (cur ++ s) :: tail := by
  induction rest with
  | nil =>
    intro prev cur
    exact ⟨[], [], by simp [segAux]⟩
  | cons t r ih =>
    intro prev cur
    rw [segAux]
    split
    · exact ⟨[], segAux t [t] r, by simp⟩
    · obtain ⟨s, tail, hst⟩ := ih t (cur ++ [t])
      exact ⟨t :: s, tail, by rw [hst]; simp⟩

theorem segAux_boundary (rest : List Transcript) :
    ∀ prev cur, cur.getLast? = some prev →
      List.Chain' (fun s1 s2 : List Transcript =>
        ∀ a ∈ s1.getLast?, ∀ b ∈ s2.head?,
          CONVERSATION_GAP_MINUTES * 60000 < b.date - a.date)
        (segAux prev cur rest) := by
  induction rest with
  | nil =>
    intro prev cur _
    exact List.chain'_singleton cur
  | cons t r ih =>
    intro prev cur hlast
    rw [segAux]
    split
    · rename_i hgap
      rw [List.chain'_cons']
      refine ⟨?_, ih t [t] rfl⟩
      intro s2 hs2 a ha b hb
      obtain ⟨s, tail, hst⟩ := segAux_head r t [t]
      rw [hst] at hs2
      simp only [List.head?_cons, Option.mem_some_iff] at hs2
      subst hs2
      rw [hlast] at ha
      simp only [Option.mem_some_iff] at ha
      subst ha
      simp only [List.singleton_append, List.head?_cons,
        Option.mem_some_iff] at hb
      subst hb
      simp only [gapExceeded, CONVERSATION_GAP_MINUTES,
        decide_eq_true_eq] at hgap
      simp only [CONVERSATION_GAP_MINUTES]
      omega
    · exact ih t (cur ++ [t]) (List.getLast?_concat _)

theorem sortByDate_det (l1 l2 : List Transcript) (hp : l1.Perm l2)
    (hd : (l1.map (·.date)).Nodup) : sortByDate l1 = sortByDate l2 := by
  have hs1 := List.sorted_insertionSort
    (fun a b : Transcript => a.date ≤ b.date) l1
  have hs2 := List.sorted_insertionSort
    (fun a b : Transcript => a.date ≤ b.date) l2
  have hp1 : (sortByDate l1).Perm l1 := List.perm_insertionSort _ l1
  have hp2 : (sortByDate l2).Perm l2 := List.perm_insertionSort _ l2
  have hd0 : l1.Pairwise (fun a b : Transcript => a.date ≠ b.date) :=
    List.pairwise_map.mp hd
  have hd2 : l2.Pairwise (fun a b : Transcript => a.date ≠ b.date) :=
    (hp.pairwise_iff (fun h e => h e.symm)).mp hd0
  have hne1 : (sortByDate l1).Pairwise
      (fun a b : Transcript => a.date ≠ b.date) :=
    (hp1.pairwise_iff (fun h e => h e.symm)).mpr hd0
  have hne2 : (sortByDate l2).Pairwise
      (fun a b : Transcript => a.date ≠ b.date) :=
    (hp2.pairwise_iff (fun h e => h e.symm)).mpr hd2
  have hlt1 : (sortByDate l1).Pairwise
      (fun a b : Transcript => a.date < b.date) :=
    (hs1.and hne1).imp (fun h => lt_of_le_of_ne h.1 h.2)
  have hlt2 : (sortByDate l2).Pairwise
      (fun a b : Transcript => a.date < b.date) :=
    (hs2.and hne2).imp (fun h => lt_of_le_of_ne h.1 h.2)
  exact List.eq_of_perm_of_sorted
    (hp1.trans (hp.trans hp2.symm)) hlt1 hlt2

/-- C6 (amended): for inputs with pairwise-distinct timestamps the
Segmenter is order-insensitive (identical segments for any two orderings
of the same transcripts); segments are non-empty, consecutive transcripts
within a segment are at most 30 minutes apart, consecutive segments are
separated by a gap above 30 minutes, and every input transcript lands in
exactly one segment.  (With tied timestamps the produced segments agree
only up to the relative order of the tied transcripts — see the
counterexample.) -/
theorem C6_segmenter (l1 l2 : List Transcript) (hp : l1.Perm l2)
    (hd : (l1.map (·.date)).Nodup) :
    groupByTimeProximity l1 = groupByTimeProximity l2 ∧
    (∀ s ∈ groupByTimeProximity l1, s ≠ []) ∧
    (∀ s ∈ groupByTimeProximity l1,
      List.Chain' (fun a b : Transcript =>
        b.date - a.date ≤ CONVERSATION_GAP_MINUTES * 60000) s) ∧
    List.Chain' (fun s1 s2 : List Transcript =>
      ∀ a ∈ s1.getLast?, ∀ b ∈ s2.head?,
        CONVERSATION_GAP_MINUTES * 60000 < b.date - a.date)
      (groupByTimeProximity l1) ∧
    ((groupByTimeProximity l1).flatten).Perm l1 := by
  refine ⟨?_, ?_, ?_, ?_, ?_⟩
  · rw [groupByTimeProximity, groupByTimeProximity,
      sortByDate_det l1 l2 hp hd]
  · cases h : sortByDate l1 with
    | nil => simp [groupByTimeProximity, h]
    | cons t rest =>
      simp only [groupByTimeProximity, h]
      exact segAux_ne_nil rest t [t] (by simp)
  · cases h : sortByDate l1 with
    | nil => simp [groupByTimeProximity, h]
    | cons t rest =>
      simp only [groupByTimeProximity, h]
      exact segAux_chain rest t [t] rfl (List.chain'_singleton t)
  · cases h : sortByDate l1 with
    | nil => simp [groupByTimeProximity, h]
    | cons t rest =>
      simp only [groupByTimeProximity, h]
      exact segAux_boundary rest t [t] rfl
  · rw [groupByTimeProximity_flatten]
    exact List.perm_insertionSort _ l1

/-- C6 witness: the 09:00 / 09:10 / 11:00 scenario — the Segmenter yields
the same two segments from a scrambled ordering, namely
`[t1, t2]` and `[t3]`. -/
theorem C6_segmenter_witness :
    (([sampleT 3 7200000, sampleT 1 0, sampleT 2 600000].Perm
        [sampleT 1 0, sampleT 2 600000, sampleT 3 7200000]) ∧
      (([sampleT 3 7200000, sampleT 1 0, sampleT 2 600000].map
        (·.date)).Nodup)) ∧
    groupByTimeProximity [sampleT 3 7200000, sampleT 1 0, sampleT 2 600000] =
      groupByTimeProximity
        [sampleT 1 0, sampleT 2 600000, sampleT 3 7200000] ∧
    groupByTimeProximity [sampleT 1 0, sampleT 2 600000, sampleT 3 7200000] =
      [[sampleT 1 0, sampleT 2 600000], [sampleT 3 7200000]] :=
  ⟨⟨by decide, by decide⟩,
   (C6_segmenter [sampleT 3 7200000, sampleT 1 0, sampleT 2 600000]
      [sampleT 1 0, sampleT 2 600000, sampleT 3 7200000]
      (by decide) (by decide)).1,
   by decide⟩

/-- C6 counterexample: two orderings of the same two transcripts with
equal timestamps produce different segment lists (the stable sort keeps
the input order of ties), so the Segmenter is not literally
order-insensitive. -/
theorem C6_counterexample :
    [tieA, tieB].Perm [tieB, tieA] ∧
    groupByTimeProximity [tieA, tieB] ≠ groupByTimeProximity [tieB, tieA] :=
  ⟨List.Perm.swap tieB tieA [], by decide⟩

/-! Coverage of a full cluster run. -/

theorem flatMap_perm_congr {α β : Type} (l : List α) (f g : α → List β)
    (h : ∀ a ∈ l, (f a).Perm (g a)) :
    (l.flatMap f).Perm (l.flatMap g) := by
  induction l with
  | nil => simp
  | cons a t ih =>
    simp only [List.flatMap_cons]
    exact (h a (List.mem_cons_self a t)).append
      (ih (fun x hx => h x (List.mem_cons_of_mem a hx)))

theorem clusterIdsAll_flatMap {α : Type} (l : List α)
    (F : α → List RawTopic) :
    clusterIdsAll (l.flatMap F) = l.flatMap (fun a => clusterIdsAll (F a)) := by
  induction l with
  | nil => simp [clusterIdsAll]
  | cons a t ih =>
    simp only [clusterIdsAll, List.flatMap_cons, List.flatMap_append] at ih ⊢
    rw [ih]

theorem enum_flatMap_snd {α β : Type} (l : List α) (g : α → List β) :
    l.enum.flatMap (fun p => g p.2) = l.flatMap g := by
  calc l.enum.flatMap (fun p => g p.2)
      = (l.enum.map Prod.snd).flatMap g := by
        rw [List.flatMap_map]
  _ = l.flatMap g := by rw [List.enum_map_snd]

theorem flatMap_map_self {α β : Type} (l : List α) (f : α → β) :
    l.flatMap (fun a => [f a]) = l.map f := by
  induction l with
  | nil => rfl
  | cons a t ih => simp [List.flatMap_cons, ih]

theorem createBatches_flatten (maxB : Nat) (segs : List (List Transcript)) :
    (createBatches maxB segs).flatten = segs.flatten := by
  simpa using createBatchesGo_flatten maxB segs []

theorem planRun_flatten_perm (ts : List Transcript) :
    (planRun ts).flatten.Perm ts := by
  rw [planRun]
  split
  · simp
  · rw [createBatches_flatten MAX_BATCH_SIZE (groupByTimeProximity ts)]
    rw [groupByTimeProximity_flatten]
    exact List.perm_insertionSort _ ts

theorem flatMap_flatten_map {α β : Type} (l : List (List α)) (f : α → β) :
    l.flatMap (fun b => b.map f) = l.flatten.map f := by
  induction l with
  | nil => rfl
  | cons a t ih => simp [List.flatMap_cons, ih]

/-- C1 (amended): whenever each batch's interpreted clusters cover that
batch's transcript ids exactly once (a permutation — the fallback path
satisfies this by construction, but a parsed model response is trusted,
not checked), a full cluster run's cluster member ids are a permutation of
all input transcript ids; hence for distinct input ids the union of the
produced clusters' `transcriptIds` equals the input id set with no id in
two clusters.  Without that per-batch condition the property fails — see
the counterexample. -/
theorem C1_coverage (resp : Nat → Option (List RawTopic))
    (ts : List Transcript)
    (h : ∀ p ∈ (planRun ts).enum,
      (clusterIdsAll (processBatch (resp p.1) p.2 p.1
        (planRun ts).length)).Perm (p.2.map (·.id))) :
    (clusterIdsAll (runFullCluster resp ts)).Perm (ts.map (·.id)) ∧
    ((ts.map (·.id)).Nodup →
      (clusterIdsAll (runFullCluster resp ts)).Nodup ∧
      ∀ x, x ∈ clusterIdsAll (runFullCluster resp ts) ↔
        x ∈ ts.map (·.id)) := by
  have hperm : (clusterIdsAll (runFullCluster resp ts)).Perm
      (ts.map (·.id)) := by
    rw [runFullCluster, clusterIdsAll_flatMap]
    have h1 : ((planRun ts).enum.flatMap (fun p =>
        clusterIdsAll (processBatch (resp p.1) p.2 p.1
          (planRun ts).length))).Perm
        ((planRun ts).enum.flatMap (fun p => p.2.map (·.id))) :=
      flatMap_perm_congr _ _ _ h
    have h2 : (planRun ts).enum.flatMap (fun p => p.2.map (·.id)) =
        (planRun ts).flatten.map (·.id) := by
      rw [enum_flatMap_snd (planRun ts) (fun b => b.map (·.id))]
      exact flatMap_flatten_map _ _
    rw [h2] at h1
    exact h1.trans ((planRun_flatten_perm ts).map (·.id))
  refine ⟨hperm, fun hnd => ⟨hperm.nodup_iff.mpr hnd, fun x => hperm.mem_iff⟩⟩

/-- C1 witness: a one-transcript run whose gateway call fails — the
fallback covers the batch exactly, and coverage holds. -/
theorem C1_coverage_witness :
    (∀ p ∈ (planRun [tHello]).enum,
      (clusterIdsAll (processBatch ((fun _ => none) p.1) p.2 p.1
        (planRun [tHello]).length)).Perm (p.2.map (·.id))) ∧
    (clusterIdsAll (runFullCluster (fun _ => none) [tHello])).Perm
      ([tHello].map (·.id)) :=
  ⟨by decide,
   (C1_coverage (fun _ => none) [tHello] (by decide)).1⟩

/-- C1 counterexample: a parseable model response naming a non-existent
transcript id is accepted unchecked, so the full run's clusters neither
cover the input ids nor stay inside them — coverage fails as an
unconditional property of a full cluster run. -/
theorem C1_counterexample :
    clusterIdsAll (runFullCluster (fun _ => some [rtWrongIds]) [tHello]) =
      ["zzz"] ∧
    "t1" ∉ clusterIdsAll
      (runFullCluster (fun _ => some [rtWrongIds]) [tHello]) ∧
    [tHello].map (·.id) = ["t1"] := by decide

/-! The cluster-new flow's writes. -/

theorem processBatch_ne_nil (resp : Option (List RawTopic))
    (b : List Transcript) (i n : Nat) : processBatch resp b i n ≠ [] := by
  cases resp with
  | none => simp [processBatch]
  | some parsed =>
    simp only [processBatch]
    split
    · rename_i hp
      intro hcon
      have := congrArg List.length hcon
      simp only [List.length_map, List.enum_length, List.length_nil] at this
      omega
    · simp

theorem planRun_ne_nil (ts : List Transcript) (hts : ts ≠ []) :
    planRun ts ≠ [] := by
  rw [planRun]
  split
  · simp
  · intro hcon
    have hfl : (createBatches MAX_BATCH_SIZE
        (groupByTimeProximity ts)).flatten = [] := by
      rw [hcon]
      rfl
    rw [createBatches_flatten, groupByTimeProximity_flatten] at hfl
    have hperm := List.perm_insertionSort
      (fun a b : Transcript => a.date ≤ b.date) ts
    rw [show List.insertionSort
      (fun a b : Transcript => a.date ≤ b.date) ts = sortByDate ts from rfl,
      hfl] at hperm
    exact hts hperm.symm.eq_nil

theorem runFullCluster_ne_nil (resp : Nat → Option (List RawTopic))
    (ts : List Transcript) (hts : ts ≠ []) :
    runFullCluster resp ts ≠ [] := by
  rw [runFullCluster]
  cases h : planRun ts with
  | nil => exact absurd h (planRun_ne_nil ts hts)
  | cons b bs =>
    rw [List.enum_cons]
    rw [List.flatMap_cons]
    intro hcon
    exact processBatch_ne_nil (resp 0) b 0 (b :: bs).length
      (List.append_eq_nil.mp hcon).1

theorem sortTranscriptsAsc_ne_nil (l : List Transcript) (hl : l ≠ []) :
    sortTranscriptsAsc l ≠ [] := by
  intro hcon
  have hperm := List.perm_insertionSort
    (fun a b : Transcript => a.date ≤ b.date) l
  rw [show List.insertionSort
    (fun a b : Transcript => a.date ≤ b.date) l = sortTranscriptsAsc l
    from rfl, hcon] at hperm
  exact hl hperm.symm.eq_nil

/-- C7 (amended): the cluster-new flow never performs the claimed single
complete upsert.  The clustering route (invoked with both `date` and
`transcriptIds`) always first upserts a partial record holding only the
delta's clusters with the delta's transcription count.  When every
produced cluster carries `transcriptIds` (in particular whenever the
fallback path ran), the page then appends the returned enriched clusters
to its existing set and `saveTopics` performs a second upsert with the
complete lean set and the full transcript count, overwriting the partial
record; when some produced cluster lacks `transcriptIds`, the route's
enrichment throws after its upsert, the route answers 500, and the
invocation ends with only the partial record written — never
overwritten. -/
theorem C7_cluster_new_writes (resp : Nat → Option (List RawTopic))
    (pageTopics : List StoredTopic) (transcriptions : List Transcript)
    (trashed : List String)
    (hu : unclusteredOf pageTopics transcriptions trashed ≠ []) :
    (routeWritePayload resp
        (sortTranscriptsAsc
          (unclusteredOf pageTopics transcriptions trashed))).transcription_count =
      (unclusteredOf pageTopics transcriptions trashed).length ∧
    runFullCluster resp
      (sortTranscriptsAsc (unclusteredOf pageTopics transcriptions trashed)) ≠
      [] ∧
    ((∀ r ∈ runFullCluster resp (sortTranscriptsAsc
        (unclusteredOf pageTopics transcriptions trashed)),
        r.transcriptIds.isSome) →
      handleClusterNewWrites resp pageTopics transcriptions trashed =
        [routeWritePayload resp
            (sortTranscriptsAsc
              (unclusteredOf pageTopics transcriptions trashed)),
          ⟨(sortStoredDesc (pageTopics ++
              enrichMap
                (runFullCluster resp (sortTranscriptsAsc
                  (unclusteredOf pageTopics transcriptions trashed)))
                (sortTranscriptsAsc
                  (unclusteredOf pageTopics transcriptions trashed)))).map
              stripStored,
            transcriptions.length⟩] ∧
      ((sortStoredDesc (pageTopics ++
          enrichMap
            (runFullCluster resp (sortTranscriptsAsc
              (unclusteredOf pageTopics transcriptions trashed)))
            (sortTranscriptsAsc
              (unclusteredOf pageTopics transcriptions trashed)))).map
          stripStored).Perm
        ((pageTopics ++
          enrichMap
            (runFullCluster resp (sortTranscriptsAsc
              (unclusteredOf pageTopics transcriptions trashed)))
            (sortTranscriptsAsc
              (unclusteredOf pageTopics transcriptions trashed))).map
          stripStored)) ∧
    ((∃ r ∈ runFullCluster resp (sortTranscriptsAsc
        (unclusteredOf pageTopics transcriptions trashed)),
        r.transcriptIds = none) →
      handleClusterNewWrites resp pageTopics transcriptions trashed =
        [routeWritePayload resp
          (sortTranscriptsAsc
            (unclusteredOf pageTopics transcriptions trashed))]) := by
  have hdelta := sortTranscriptsAsc_ne_nil _ hu
  have hout := runFullCluster_ne_nil resp _ hdelta
  have h1 : (unclusteredOf pageTopics transcriptions trashed).isEmpty =
      false := by
    cases hcase : unclusteredOf pageTopics transcriptions trashed with
    | nil => exact absurd hcase hu
    | cons a t => rfl
  refine ⟨(List.perm_insertionSort _ _).length_eq, hout, ?_, ?_⟩
  · intro hall
    have hguard : (runFullCluster resp (sortTranscriptsAsc
        (unclusteredOf pageTopics transcriptions trashed))).all
        (fun t => t.transcriptIds.isSome) = true :=
      List.all_eq_true.mpr hall
    have henrich : enrichForResponse
        (runFullCluster resp (sortTranscriptsAsc
          (unclusteredOf pageTopics transcriptions trashed)))
        (sortTranscriptsAsc
          (unclusteredOf pageTopics transcriptions trashed)) =
        some (enrichMap
          (runFullCluster resp (sortTranscriptsAsc
            (unclusteredOf pageTopics transcriptions trashed)))
          (sortTranscriptsAsc
            (unclusteredOf pageTopics transcriptions trashed))) := by
      rw [enrichForResponse, if_pos hguard]
    have h2 : (enrichMap
        (runFullCluster resp (sortTranscriptsAsc
          (unclusteredOf pageTopics transcriptions trashed)))
        (sortTranscriptsAsc
          (unclusteredOf pageTopics transcriptions trashed))).isEmpty =
        false := by
      cases hcase : enrichMap
          (runFullCluster resp (sortTranscriptsAsc
            (unclusteredOf pageTopics transcriptions trashed)))
          (sortTranscriptsAsc
            (unclusteredOf pageTopics transcriptions trashed)) with
      | nil =>
        rw [enrichMap] at hcase
        exact absurd (List.map_eq_nil_iff.mp hcase) hout
      | cons a t => rfl
    constructor
    · simp only [handleClusterNewWrites, h1, Bool.false_eq_true, if_false,
        henrich, h2]
    · exact (List.perm_insertionSort _ _).map stripStored
  · rintro ⟨r, hr, hnone⟩
    have hguard : (runFullCluster resp (sortTranscriptsAsc
        (unclusteredOf pageTopics transcriptions trashed))).all
        (fun t => t.transcriptIds.isSome) = false := by
      by_contra hcontra
      rw [Bool.not_eq_false] at hcontra
      have := List.all_eq_true.mp hcontra r hr
      rw [hnone] at this
      simp at this
    have henrich : enrichForResponse
        (runFullCluster resp (sortTranscriptsAsc
          (unclusteredOf pageTopics transcriptions trashed)))
        (sortTranscriptsAsc
          (unclusteredOf pageTopics transcriptions trashed)) = none := by
      rw [enrichForResponse, if_neg (by simp [hguard])]
    simp only [handleClusterNewWrites, h1, Bool.false_eq_true, if_false,
      henrich]

/-- C7 witness: over one existing cluster and one new transcript, a
failed gateway call (fallback path) yields exactly two upserts, while a
parsed response lacking `transcriptIds` leaves only the route's single
partial upsert. -/
theorem C7_cluster_new_writes_witness :
    (unclusteredOf [pageTopicEx] [tHello, tNew] [] ≠ []) ∧
    (handleClusterNewWrites (fun _ => none) [pageTopicEx] [tHello, tNew]
      []).length = 2 ∧
    (handleClusterNewWrites (fun _ => some [rtEmptyFields]) [pageTopicEx]
      [tHello, tNew] []).length = 1 := by
  refine ⟨by decide, ?_, ?_⟩
  · rw [((C7_cluster_new_writes (fun _ => none) [pageTopicEx]
      [tHello, tNew] [] (by decide)).2.2.1 (by decide)).1]
    rfl
  · rw [(C7_cluster_new_writes (fun _ => some [rtEmptyFields]) [pageTopicEx]
      [tHello, tNew] [] (by decide)).2.2.2 (by decide)]
    rfl

/-- C7 counterexample: in a concrete cluster-new invocation the store
receives two upserts, and the first one is a partial record — it carries
only the delta's single fallback cluster with the delta's transcription
count 1 (the full set has two transcripts and also the pre-existing
cluster, which the first write lacks). -/
theorem C7_counterexample :
    (handleClusterNewWrites (fun _ => none) [pageTopicEx] [tHello, tNew]
        []).map (·.transcription_count) = [1, 2] ∧
    ((handleClusterNewWrites (fun _ => none) [pageTopicEx] [tHello, tNew]
        []).headD default).topics = [⟨fallbackCluster [tNew] 0, none⟩] ∧
    pageTopicEx ∉ ((handleClusterNewWrites (fun _ => none) [pageTopicEx]
        [tHello, tNew] []).headD default).topics := by decide

/-! Merge. -/

theorem jsSetDedupAux_mem (fuel : Nat) :
    ∀ l : List String, l.length ≤ fuel →
      ∀ x, x ∈ jsSetDedupAux fuel l ↔ x ∈ l := by
  induction fuel with
  | zero =>
    intro l hl x
    have : l = [] := List.length_eq_zero.mp (Nat.le_zero.mp hl)
    subst this
    simp [jsSetDedupAux]
  | succ fuel ih =>
    intro l hl x
    cases l with
    | nil => simp [jsSetDedupAux]
    | cons a t =>
      rw [jsSetDedupAux]
      simp only [List.length_cons] at hl
      have hfl : (t.filter (fun y => y ≠ a)).length ≤ fuel :=
        le_trans (List.length_filter_le _ _) (by omega)
      constructor
      · intro hx
        rcases List.mem_cons.mp hx with rfl | hx2
        · exact List.mem_cons_self _ _
        · have := (ih _ hfl x).mp hx2
          rcases List.mem_filter.mp this with ⟨hmem, _⟩
          exact List.mem_cons_of_mem _ hmem
      · intro hx
        rcases List.mem_cons.mp hx with rfl | hx2
        · exact List.mem_cons_self _ _
        · by_cases hxa : x = a
          · subst hxa
            exact List.mem_cons_self _ _
          · exact List.mem_cons_of_mem _ ((ih _ hfl x).mpr
              (List.mem_filter.mpr ⟨hx2, by simp [hxa]⟩))

theorem jsSetDedupAux_nodup (fuel : Nat) :
    ∀ l : List String, l.length ≤ fuel → (jsSetDedupAux fuel l).Nodup := by
  induction fuel with
  | zero =>
    intro l hl
    have : l = [] := List.length_eq_zero.mp (Nat.le_zero.mp hl)
    subst this
    simp [jsSetDedupAux]
  | succ fuel ih =>
    intro l hl
    cases l with
    | nil => simp [jsSetDedupAux]
    | cons a t =>
      rw [jsSetDedupAux]
      simp only [List.length_cons] at hl
      have hfl : (t.filter (fun y => y ≠ a)).length ≤ fuel :=
        le_trans (List.length_filter_le _ _) (by omega)
      refine List.nodup_cons.mpr ⟨?_, ih _ hfl⟩
      intro hmem
      have := (jsSetDedupAux_mem fuel _ hfl a).mp hmem
      rcases List.mem_filter.mp this with ⟨_, hne⟩
      simp at hne

theorem jsSetDedup_mem (l : List String) (x : String) :
    x ∈ jsSetDedup l ↔ x ∈ l :=
  jsSetDedupAux_mem l.length l le_rfl x

theorem jsSetDedup_nodup (l : List String) : (jsSetDedup l).Nodup :=
  jsSetDedupAux_nodup l.length l le_rfl

theorem sorted_head_le (s : List Transcript) (hne : s ≠ [])
    (hs : s.Sorted (fun a b : Transcript => a.date ≤ b.date)) :
    ∀ x ∈ s, (s.head hne).date ≤ x.date := by
  cases s with
  | nil => exact absurd rfl hne
  | cons a t =>
    intro x hx
    rcases List.mem_cons.mp hx with rfl | hx2
    · exact le_refl _
    · exact List.rel_of_sorted_cons hs x hx2

theorem sorted_le_getLast (s : List Transcript) :
    ∀ (hne : s ≠ []),
      s.Sorted (fun a b : Transcript => a.date ≤ b.date) →
      ∀ x ∈ s, x.date ≤ (s.getLast hne).date := by
  induction s with
  | nil =>
    intro hne
    exact absurd rfl hne
  | cons a t ih =>
    intro hne hs x hx
    cases t with
    | nil =>
      rcases List.mem_singleton.mp hx with rfl
      simp [List.getLast]
    | cons b t2 =>
      rw [List.getLast_cons (List.cons_ne_nil b t2)]
      rcases List.mem_cons.mp hx with rfl | hx2
      · exact List.rel_of_sorted_cons hs _ (List.getLast_mem _)
      · exact ih (List.cons_ne_nil b t2) hs.of_cons x hx2

/-- C8: merging at least two selected clusters replaces them with the one
merged cluster: the new topic list is (up to the display sort) the
unselected clusters plus the merged one, every remaining entry is either
the merged cluster or unselected, the merged cluster's id is
`merged_{timestamp}`, its title the selected titles joined by `" + "`, its
sections the concatenation of the selected sections, its `transcriptIds`
the duplicate-free union of the selected clusters' ids, its
`startTime`/`endTime` the minimum and maximum timestamp over the union of
member transcripts, and the result is persisted through `saveTopics`. -/
theorem C8_merge (now : Int) (selected : List String)
    (topics : List PageTopic) (tcount : Nat) (first : PageTopic)
    (rest : List PageTopic)
    (h2 : 2 ≤ selected.length)
    (hm : topics.filter (fun t => selected.contains t.id) = first :: rest) :
    handleMergeTopics now selected topics tcount =
      some (sortTopicsDesc
          (topics.filter (fun t => ¬ selected.contains t.id) ++
            [mergedTopicOf now first rest]),
        saveTopicsPayload
          (sortTopicsDesc
            (topics.filter (fun t => ¬ selected.contains t.id) ++
              [mergedTopicOf now first rest])) tcount) ∧
    (sortTopicsDesc
        (topics.filter (fun t => ¬ selected.contains t.id) ++
          [mergedTopicOf now first rest])).Perm
      (topics.filter (fun t => ¬ selected.contains t.id) ++
        [mergedTopicOf now first rest]) ∧
    (∀ p ∈ sortTopicsDesc
        (topics.filter (fun t => ¬ selected.contains t.id) ++
          [mergedTopicOf now first rest]),
      p = mergedTopicOf now first rest ∨ selected.contains p.id = false) ∧
    (mergedTopicOf now first rest).id = "merged_" ++ toString now ∧
    (mergedTopicOf now first rest).title =
      String.intercalate " + " ((first :: rest).map (·.title)) ∧
    (mergedTopicOf now first rest).sections =
      (first :: rest).flatMap (·.sections) ∧
    (mergedTopicOf now first rest).transcriptIds.Nodup ∧
    (∀ x, x ∈ (mergedTopicOf now first rest).transcriptIds ↔
      ∃ t ∈ first :: rest, x ∈ t.transcriptIds) ∧
    ((first :: rest).flatMap (·.transcripts) ≠ [] →
      ((mergedTopicOf now first rest).startTime ∈
          ((first :: rest).flatMap (·.transcripts)).map (·.date) ∧
        ∀ t ∈ (first :: rest).flatMap (·.transcripts),
          (mergedTopicOf now first rest).startTime ≤ t.date) ∧
      ((mergedTopicOf now first rest).endTime ∈
          ((first :: rest).flatMap (·.transcripts)).map (·.date) ∧
        ∀ t ∈ (first :: rest).flatMap (·.transcripts),
          t.date ≤ (mergedTopicOf now first rest).endTime)) := by
  have hnot : ¬ selected.length < 2 := by omega
  refine ⟨?_, List.perm_insertionSort _ _, ?_, rfl, rfl, rfl, ?_, ?_, ?_⟩
  · simp only [handleMergeTopics, if_neg hnot, hm]
  · intro p hp
    have hp2 : p ∈ topics.filter (fun t => ¬ selected.contains t.id) ++
        [mergedTopicOf now first rest] :=
      (List.perm_insertionSort _ _).mem_iff.mp hp
    rcases List.mem_append.mp hp2 with h | h
    · right
      have := (List.mem_filter.mp h).2
      simpa using this
    · left
      exact List.mem_singleton.mp h
  · simp only [mergedTopicOf]
    exact jsSetDedup_nodup _
  · intro x
    simp only [mergedTopicOf]
    rw [jsSetDedup_mem]
    exact List.mem_flatMap
  · intro hL
    have hne2 : sortTranscriptsAsc
        ((first :: rest).flatMap (·.transcripts)) ≠ [] :=
      sortTranscriptsAsc_ne_nil _ hL
    have hperm : (sortTranscriptsAsc
        ((first :: rest).flatMap (·.transcripts))).Perm
        ((first :: rest).flatMap (·.transcripts)) :=
      List.perm_insertionSort _ _
    have hsorted : (sortTranscriptsAsc
        ((first :: rest).flatMap (·.transcripts))).Sorted
        (fun a b : Transcript => a.date ≤ b.date) :=
      List.sorted_insertionSort _ _
    have hstart : (mergedTopicOf now first rest).startTime =
        ((sortTranscriptsAsc
          ((first :: rest).flatMap (·.transcripts))).head hne2).date := by
      simp only [mergedTopicOf]
      rw [List.head?_eq_head hne2]
    have hend : (mergedTopicOf now first rest).endTime =
        ((sortTranscriptsAsc
          ((first :: rest).flatMap (·.transcripts))).getLast hne2).date := by
      simp only [mergedTopicOf]
      rw [List.getLast?_eq_getLast _ hne2]
    refine ⟨⟨?_, ?_⟩, ?_, ?_⟩
    · rw [hstart]
      exact List.mem_map_of_mem _ (hperm.mem_iff.mp (List.head_mem hne2))
    · intro t ht
      rw [hstart]
      exact sorted_head_le _ hne2 hsorted t (hperm.mem_iff.mpr ht)
    · rw [hend]
      exact List.mem_map_of_mem _ (hperm.mem_iff.mp (List.getLast_mem hne2))
    · intro t ht
      rw [hend]
      exact sorted_le_getLast _ hne2 hsorted t (hperm.mem_iff.mpr ht)

/-- C8 witness: merging the two concrete clusters `pageA` and `pageB`
yields one cluster with the deduplicated id union `["t1", "t2"]`,
recomputed bounds 5 and 9, and the joined title. -/
theorem C8_merge_witness :
    ((2 ≤ (["a", "b"] : List String).length) ∧
      ([pageA, pageB].filter
        (fun t => (["a", "b"] : List String).contains t.id) =
        pageA :: [pageB])) ∧
    handleMergeTopics 123 ["a", "b"] [pageA, pageB] 2 =
      some (sortTopicsDesc
          ([pageA, pageB].filter
            (fun t => ¬ (["a", "b"] : List String).contains t.id) ++
            [mergedTopicOf 123 pageA [pageB]]),
        saveTopicsPayload
          (sortTopicsDesc
            ([pageA, pageB].filter
              (fun t => ¬ (["a", "b"] : List String).contains t.id) ++
              [mergedTopicOf 123 pageA [pageB]])) 2) ∧
    (mergedTopicOf 123 pageA [pageB]).transcriptIds = ["t1", "t2"] ∧
    (mergedTopicOf 123 pageA [pageB]).startTime = 5 ∧
    (mergedTopicOf 123 pageA [pageB]).endTime = 9 ∧
    (mergedTopicOf 123 pageA [pageB]).title = "TA + TB" :=
  ⟨⟨by decide, by decide⟩,
   (C8_merge 123 ["a", "b"] [pageA, pageB] 2 pageA [pageB]
      (by decide) (by decide)).1,
   by decide, by decide, by decide, by decide⟩

end Alfred
